import Mathlib

/-!
Verification of the argulib argumentation library against its specification.

Each definition below is a shallow embedding of a function of the Python
source (files `argulib/aal.py`, `argulib/common.py`, `argulib/kb.py` and
`argumentation/discussions.py` / `argumentation/players.py`); the source
file and function are named in the doc comment of every definition.
Python sets are modelled as lists without duplicates (inserting an element
that is already present, under the relevant equality, leaves the list
unchanged), Python dicts as insertion-ordered association lists, and
Python exceptions as `Except` values; where an exception escapes after the
object was already mutated, the error value carries the mutated state,
mirroring the fact that in Python the object keeps those mutations.
-/

deriving instance DecidableEq for Except

namespace Argulib

/-- The exception kinds raised by the library (argulib/common.py and
argulib/kb.py), together with the Python built-ins `ValueError` and
`AttributeError` which some code paths raise. -/
inductive PyErr where
  | kbError
  | illegalArgument
  | illegalMove
  | notYourMove
  | methodNotApplicable
  | valueError
  | attributeError
  | keyError
deriving DecidableEq

/-! ## Labelling (argulib/aal.py, class Labelling)

An argumentation framework is modelled by its set of arguments `args` and
the attack map `minus` giving, for each argument, the finite set of its
attackers (`Argument.minus` in the source).  A `Labelling` is the triple
of its `IN`, `OUT` and `UNDEC` sets; `Labelling.__eq__` compares exactly
these three sets, so equality of the structure is the source equality. -/

structure Labelling (α : Type) where
  IN : Finset α
  OUT : Finset α
  UNDEC : Finset α
deriving DecidableEq

variable {α : Type} [DecidableEq α]

/-- `Labelling.is_legally_in`: `arg.minus <= self.OUT`. -/
def Labelling.is_legally_in (minus : α → Finset α) (l : Labelling α) (a : α) : Prop :=
  minus a ⊆ l.OUT

instance (minus : α → Finset α) (l : Labelling α) (a : α) :
    Decidable (Labelling.is_legally_in minus l a) := by
  unfold Labelling.is_legally_in; infer_instance

/-- `Labelling.is_legally_out`: `arg.minus & self.IN` — truthy iff the
intersection is non-empty. -/
def Labelling.is_legally_out (minus : α → Finset α) (l : Labelling α) (a : α) : Prop :=
  (minus a ∩ l.IN).Nonempty

instance (minus : α → Finset α) (l : Labelling α) (a : α) :
    Decidable (Labelling.is_legally_out minus l a) := by
  unfold Labelling.is_legally_out; infer_instance

/-- `Labelling.is_legally_undecided`:
`not arg.minus & self.IN and arg.minus & self.UNDEC` — truthy iff no
attacker is in `IN` and the intersection with `UNDEC` is non-empty. -/
def Labelling.is_legally_undecided (minus : α → Finset α) (l : Labelling α) (a : α) : Bool :=
  decide (minus a ∩ l.IN = ∅) && decide ((minus a ∩ l.UNDEC).Nonempty)

/-- `Labelling.all_UNDEC`: labelling with `IN = OUT = {}` and
`UNDEC = set(af.arguments)`. -/
def Labelling.all_UNDEC (args : Finset α) : Labelling α :=
  ⟨∅, ∅, args⟩

/-- The `steps` dictionary of a labelling, modelled as a partial map; an
entry is recorded only if the argument has no entry yet
(`if a not in self.steps`). -/
def addSteps (steps : α → Option Nat) (moved : Finset α) (c : Nat) : α → Option Nat :=
  fun a =>
    match steps a with
    | some v => some v
    | none => if a ∈ moved then some c else none

/-- `Labelling.up_complete_update` (argulib/aal.py lines 592-613): repeat
until no argument moves: compute the legally-IN and the legally-OUT subsets
of `UNDEC` with respect to the current sets, move them into `IN` / `OUT`,
and record the round counter as the step of each moved argument; when
nothing moves any more, record the current counter for the remaining
`UNDEC` arguments and stop.  The `self.updated()` signal is omitted. -/
def up_complete_update (minus : α → Finset α) (l : Labelling α)
    (steps : α → Option Nat) (counter : Nat) : Labelling α × (α → Option Nat) :=
  let c := counter + 1
  let legallyIN := l.UNDEC.filter (fun a => Labelling.is_legally_in minus l a)
  let legallyOUT := l.UNDEC.filter (fun a => Labelling.is_legally_out minus l a)
  if legallyIN = ∅ ∧ legallyOUT = ∅ then
    (l, addSteps steps l.UNDEC c)
  else
    up_complete_update minus
      ⟨l.IN ∪ legallyIN, l.OUT ∪ legallyOUT, (l.UNDEC \ legallyIN) \ legallyOUT⟩
      (addSteps steps (legallyIN ∪ legallyOUT) c) c
termination_by l.UNDEC.card
decreasing_by
  rename_i h
  rw [Classical.not_and_iff_or_not_not] at h
  apply Finset.card_lt_card
  constructor
  · intro a ha
    simp only [Finset.mem_sdiff] at ha
    exact ha.1.1
  · intro hsub
    rcases h with h | h
    · rcases Finset.nonempty_iff_ne_empty.mpr h with ⟨a, ha⟩
      have ha' := Finset.mem_filter.mp ha
      have hmem := hsub ha'.1
      simp only [Finset.mem_sdiff] at hmem
      exact hmem.1.2 ha
    · rcases Finset.nonempty_iff_ne_empty.mpr h with ⟨a, ha⟩
      have ha' := Finset.mem_filter.mp ha
      have hmem := hsub ha'.1
      simp only [Finset.mem_sdiff] at hmem
      exact hmem.2 ha

/-- `Labelling.grounded`: `cls.all_UNDEC(af).up_complete_update()`; the
`steps` dictionary of a fresh labelling is empty and the counter starts
at 0. -/
def grounded (minus : α → Finset α) (args : Finset α) : Labelling α :=
  (up_complete_update minus (Labelling.all_UNDEC args) (fun _ => none) 0).1

/-- `Labelling.get_label` (argulib/aal.py lines 408-415): membership in
`IN`, then `OUT`, otherwise the string `"UNDEC"`. -/
def Labelling.get_label (l : Labelling α) (a : α) : String :=
  if a ∈ l.IN then "IN"
  else if a ∈ l.OUT then "OUT"
  else "UNDEC"

/-- `Labelling.label_for` (argulib/aal.py lines 496-505): membership in
`IN`, `OUT`, `UNDEC`, otherwise `raise IllegalArgument()`. -/
def Labelling.label_for (l : Labelling α) (a : α) : Except PyErr String :=
  if a ∈ l.IN then .ok "IN"
  else if a ∈ l.OUT then .ok "OUT"
  else if a ∈ l.UNDEC then .ok "UNDEC"
  else .error .illegalArgument

/-- Module-level helper `is_in` (argulib/aal.py lines 658-661):
`(arg.minus & labelling.OUT) == arg.minus`. -/
def is_in (minus : α → Finset α) (l : Labelling α) (a : α) : Bool :=
  decide (minus a ∩ l.OUT = minus a)

/-- Module-level helper `is_out` (argulib/aal.py lines 664-667):
`any(arg.minus & labelling.IN)` — arguments have no `__bool__`, so this is
truthy iff the intersection is non-empty. -/
def is_out (minus : α → Finset α) (l : Labelling α) (a : α) : Bool :=
  decide ((minus a ∩ l.IN).Nonempty)

/-- In `is_undec` the source writes `not is_out` where `is_out` is the
function object itself, not a call; a Python function object is truthy,
so this operand is the constant `True`. -/
def is_out_truthiness : Bool := true

/-- Module-level helper `is_undec` (argulib/aal.py lines 670-673):
`not is_in(labelling, arg) and not is_out`.  The second conjunct negates
the truthiness of the function object `is_out` (see
`is_out_truthiness`), so the whole expression is always `False`. -/
def is_undec (minus : α → Finset α) (l : Labelling α) (a : α) : Bool :=
  !(is_in minus l a) && !is_out_truthiness

/-- Module-level helper `assign_label_from` (argulib/aal.py lines
676-684): try `is_in`, `is_out`, `is_undec` in order, else `None`. -/
def assign_label_from (minus : α → Finset α) (l : Labelling α) (a : α) : Option String :=
  if is_in minus l a then some "IN"
  else if is_out minus l a then some "OUT"
  else if is_undec minus l a then some "UNDEC"
  else none

/-! Auxiliary facts about the grounded labelling. -/

/-- The three sets of `l` cover `args` and are pairwise disjoint. -/
def IsPartition (l : Labelling α) (args : Finset α) : Prop :=
  l.IN ∪ l.OUT ∪ l.UNDEC = args ∧
    Disjoint l.IN l.OUT ∧ Disjoint l.IN l.UNDEC ∧ Disjoint l.OUT l.UNDEC


/-! ## Graph (argulib/common.py, class Graph) and the preference DAG

The graph stores `self._items`, a dict from node to the set of successor
nodes, modelled as an insertion-ordered association list. -/

/-- Lookup in an insertion-ordered association list (Python dict access). -/
def lookupAL {κ β : Type} [DecidableEq κ] (k : κ) : List (κ × β) → Option β
  | [] => none
  | kv :: rest => if kv.1 = k then some kv.2 else lookupAL k rest

/-- Replace the value stored at a key, keeping its position (Python dict
assignment to an existing key). -/
def replaceAL {κ β : Type} [DecidableEq κ] (m : List (κ × β)) (k : κ) (v : β) :
    List (κ × β) :=
  m.map (fun kv => if kv.1 = k then (k, v) else kv)

structure Graph where
  items : List (String × List String)
deriving DecidableEq

/-- `node in self._items`. -/
def Graph.contains (g : Graph) (n : String) : Bool :=
  (lookupAL n g.items).isSome

def Graph.empty : Graph := ⟨[]⟩

/-- `Graph.add_node` with the default `replace=False`. -/
def Graph.add_node (g : Graph) (n : String) : Graph :=
  if g.contains n then g else ⟨g.items ++ [(n, [])]⟩

/-- `Graph.add_edge` with the default `create=True`: missing endpoints are
added as nodes, then `dest` is added to the successor set of `source`. -/
def Graph.add_edge (g : Graph) (s d : String) : Graph :=
  let g := if !g.contains s || !g.contains d then (g.add_node s).add_node d else g
  match lookupAL s g.items with
  | some succs => ⟨replaceAL g.items s (if d ∈ succs then succs else succs ++ [d])⟩
  | none => g

/-- `Graph.del_edge`: if `source` is a node, `self._items[source].remove(dest)`;
`set.remove` raises `KeyError` when `dest` is absent. -/
def Graph.del_edge (g : Graph) (s d : String) : Except PyErr Graph :=
  match lookupAL s g.items with
  | none => .ok g
  | some succs =>
    if d ∈ succs then .ok ⟨replaceAL g.items s (succs.erase d)⟩
    else .error .keyError

/-- The successor loop of `find_path` (common.py lines 229-233): skip
successors already on the path and return the first recursive result that
is not `None`; `fp` is the recursive call with the remaining fuel. -/
def first_path (fp : String → Option (List String)) (path : List String) :
    List String → Option (List String)
  | [] => none
  | n :: rest =>
    if n ∈ path then first_path fp path rest
    else
      match fp n with
      | some p => some p
      | none => first_path fp path rest

/-- `Graph.find_path(start, end, path)` (common.py lines 219-234): append
`start` to `path`; if `start == end` return the path; if `start` is not a
node return `None`; otherwise try each successor not already on the path
and return the first path found.  The recursion depth is bounded by the
number of nodes plus two, so the fuel, instantiated with that bound in
`Graph.find_path_top`, never runs out. -/
def Graph.find_path (g : Graph) : Nat → String → String → List String →
    Option (List String)
  | 0, _, _, _ => none
  | fuel + 1, start, fin, path =>
    let path := path ++ [start]
    if start = fin then some path
    else
      match lookupAL start g.items with
      | none => none
      | some succs => first_path (fun n => Graph.find_path g fuel n fin path) path succs

/-- `find_path` as called by the library: `path` defaults to `[]` and the
fuel is the recursion-depth bound. -/
def Graph.find_path_top (g : Graph) (a b : String) : Option (List String) :=
  Graph.find_path g (g.items.length + 2) a b []

/-- `KnowledgeBase.more_preferred` (kb.py lines 916-922) on rule names:
`a` is more preferred than `b` iff `find_path(a, b)` returns a path other
than `[a]`. -/
def more_preferred (g : Graph) (a b : String) : Bool :=
  match g.find_path_top a b with
  | none => false
  | some p => decide (p ≠ [a])

/-- `KnowledgeBase.less_preferred` (kb.py lines 924-926). -/
def less_preferred (g : Graph) (a b : String) : Bool :=
  more_preferred g b a

/-- An ordering rule (kb.py, class Ordering): a list of group pairs and the
direction character.  `'A < B < C'` parses to
`data = [([A],[B]), ([B],[C])]`, `direction = '<'`. -/
structure Ordering where
  data : List (List String × List String)
  direction : Char
deriving DecidableEq

/-- The edge list built by `add_preference_rule` (kb.py lines 876-879):
`itertools.product(higher, lower)` for `'<'`, `itertools.product(lower,
higher)` otherwise. -/
def prefEdges (lower higher : List String) (direction : Char) :
    List (String × String) :=
  if direction = '<' then higher.flatMap (fun h => lower.map (fun l => (h, l)))
  else lower.flatMap (fun l => higher.map (fun h => (l, h)))

/-- The consistency loop of `add_preference_rule` (kb.py lines 882-894): on
a deep copy `tmp` of the DAG, for each edge `e` look for a path from `e[1]`
to `e[0]`; if one exists the whole insertion is rejected, otherwise the edge
is tentatively added to `tmp` and the loop continues. -/
def checkEdges (tmp : Graph) : List (String × String) → Bool
  | [] => true
  | e :: rest =>
    match tmp.find_path_top e.2 e.1 with
    | some _ => false
    | none => checkEdges (tmp.add_edge e.1 e.2) rest

/-- `KnowledgeBase.add_preference_rule` (kb.py lines 867-899): build the
edge list, check every edge on a deep copy, and only on full success commit
all edges to `self._prefs`; otherwise raise `KbError` leaving `_prefs`
untouched. -/
def add_preference_rule (g : Graph) (lower higher : List String)
    (direction : Char) : Except PyErr Graph :=
  let edges := prefEdges lower higher direction
  if checkEdges g edges then .ok (edges.foldl (fun g e => g.add_edge e.1 e.2) g)
  else .error .kbError

/-- The loop of `KnowledgeBase.add_ordering` (kb.py lines 845-857):
`for a, b in ordering.data: self.add_preference_rule(a, b, direction)`.
Each pair is one `add_preference_rule` call; an exception escapes with the
pairs already processed left committed.  The error value carries the DAG at
the moment the exception is raised. -/
def applyPairs (direction : Char) :
    Graph → List (List String × List String) → Except (PyErr × Graph) Graph
  | g, [] => .ok g
  | g, ab :: rest =>
    match add_preference_rule g ab.1 ab.2 direction with
    | .error e => .error (e, g)
    | .ok g1 => applyPairs direction g1 rest

/-- Effect of `KnowledgeBase.add_ordering` on the preference DAG; the
subsequent `ordering_changed()` and `recalculate()` calls do not modify
`self._prefs`. -/
def add_ordering_prefs (g : Graph) (o : Ordering) : Except (PyErr × Graph) Graph :=
  applyPairs o.direction g o.data

/-- The edge-deletion loop of `del_preference_rule` (kb.py lines 901-914):
delete each edge in turn inside a `try`; a `KeyError` is caught and `False`
returned, with the edges already deleted staying deleted. -/
def delEdgesLoop (g : Graph) : List (String × String) → Bool × Graph
  | [] => (true, g)
  | e :: rest =>
    match g.del_edge e.1 e.2 with
    | .ok g1 => delEdgesLoop g1 rest
    | .error _ => (false, g)

/-- `KnowledgeBase.del_preference_rule` (kb.py lines 901-914). -/
def del_preference_rule (g : Graph) (lower higher : List String)
    (direction : Char) : Bool × Graph :=
  delEdgesLoop g (prefEdges lower higher direction)

/-- `KnowledgeBase.del_ordering` (kb.py lines 859-865): the loop body is
`self.del_preference_rule(a, b, direction=ordering.ord)`.  The `Ordering`
class defines the attribute `direction` but no attribute `ord`, so
evaluating `ordering.ord` on the first iteration raises `AttributeError`
before any deletion happens; when `data` is empty the loop body never runs
and the method completes (the following `ordering_changed()` and
`recalculate()` calls do not modify `_prefs`). -/
def del_ordering (g : Graph) (o : Ordering) : Except (PyErr × Graph) Graph :=
  match o.data with
  | [] => .ok g
  | _ :: _ => .error (.attributeError, g)

/-- The preference lines written by `KnowledgeBase.save_into_file` (kb.py
lines 961-969): for every node `k` of `self._prefs` whose successor set
`vs` is non-empty it writes the line `'{k} < {vs}'` with `vs` joined by
commas.  Read back, such a line parses to the ordering
`Ordering(([k], vs), direction='<')`; this definition returns these parsed
orderings directly, bypassing the text file. -/
def save_prefs (g : Graph) : List Ordering :=
  g.items.filterMap
    (fun kv => if kv.2 ≠ [] then some ⟨[([kv.1], kv.2)], '<'⟩ else none)

/-- The preference part of loading a saved file (`parse_file`, kb.py lines
975-990): each line is fed to `add_rule` inside a `try` that logs and
continues, so a failing line leaves the state as already mutated. -/
def load_prefs (g0 : Graph) (os : List Ordering) : Graph :=
  os.foldl
    (fun g o => match add_ordering_prefs g o with | .ok g1 => g1 | .error e => e.2) g0

/-- Round trip of the preference DAG through `save_into_file` and
`parse_file` into a fresh knowledge base (whose DAG starts empty). -/
def roundtrip_prefs (g : Graph) : Graph :=
  load_prefs Graph.empty (save_prefs g)

/-! Concrete instances used by the theorems on the preference DAG. -/

/-- DAG after inserting the ordering `C < B`: the single edge `B -> C`. -/
def gC3 : Graph := Graph.empty.add_edge "B" "C"

/-- The ordering `A < B < C`. -/
def oC3 : Ordering := ⟨[(["A"], ["B"]), (["B"], ["C"])], '<'⟩

/-- `gC3` after the first pair of `oC3` commits the edge `B -> A`. -/
def gC3after : Graph := gC3.add_edge "B" "A"

/-- DAG after inserting the ordering `R1 < R2`: the single edge `R2 -> R1`. -/
def gC6 : Graph := Graph.empty.add_edge "R2" "R1"

/-- DAG after inserting the ordering `R1 < R2`, for the deletion claim. -/
def gC7 : Graph := Graph.empty.add_edge "R2" "R1"

/-- The ordering `R1 < R2`. -/
def oC7 : Ordering := ⟨[(["R1"], ["R2"])], '<'⟩

/-! Concrete instances for the legal-UNDEC claim: argument 1 is attacked
exactly by argument 0, and the labelling has 0 in `UNDEC` only. -/

/-- Attack map with `minus 1 = {0}` and no other attacks. -/
def minusC4 : Fin 2 → Finset (Fin 2) := fun i => if i = 1 then {0} else ∅

/-- Labelling with `IN = OUT = {}` and `UNDEC = {0}`. -/
def lC4 : Labelling (Fin 2) := ⟨∅, ∅, {0}⟩


/-! ## Literals and rules (argulib/kb.py) -/

/-- Python string comparison: lexicographic by code point. -/
def charListLt : List Char → List Char → Bool
  | [], [] => false
  | [], _ :: _ => true
  | _ :: _, [] => false
  | c :: cs, d :: ds =>
    if c.toNat < d.toNat then true
    else if d.toNat < c.toNat then false
    else charListLt cs ds

/-- Python string comparison on `String`. -/
def strLt (a b : String) : Bool :=
  charListLt a.data b.data

/-- A possibly negated literal (kb.py, class Literal); equality and
ordering are by `(name, negated)`. -/
structure Literal where
  name : String
  negated : Bool
deriving DecidableEq

/-- `Literal.__neg__`. -/
def Literal.neg (l : Literal) : Literal := ⟨l.name, !l.negated⟩

/-- `Literal.__str__`: `'-'` prefix when negated. -/
def Literal.str (l : Literal) : String :=
  (if l.negated then "-" else "") ++ l.name

/-- `Literal.__lt__`: tuple comparison `(name, negated) < (name, negated)`
with `False < True`. -/
def Literal.lt (a b : Literal) : Bool :=
  strLt a.name b.name || (decide (a.name = b.name) && (!a.negated && b.negated))

/-- Stable insertion into a sorted list: the new element goes after every
element it is not strictly less than, which is how Python's stable sort
orders equal elements. -/
def insertSorted {β : Type} (lt : β → β → Bool) (x : β) : List β → List β
  | [] => [x]
  | y :: ys => if lt x y then x :: y :: ys else y :: insertSorted lt x ys

/-- Stable sort by the given strict order (Python `sorted` / `list.sort`,
which only use `__lt__`). -/
def sortBy {β : Type} (lt : β → β → Bool) (l : List β) : List β :=
  l.foldl (fun acc x => insertSorted lt x acc) []

/-- A strict or defeasible rule (kb.py, classes StrictRule and
DefeasibleRule).  The constructors sort the antecedent (and the
vulnerabilities); `mkStrictRule` and `mkDefeasibleRule` below do that
sorting. -/
inductive Rule where
  | strict (antecedent : List Literal) (consequent : Literal) (name : String)
  | defeasible (antecedent : List Literal) (consequent : Literal)
      (vulnerabilities : List Literal) (name : String)
deriving DecidableEq

def Rule.antecedent : Rule → List Literal
  | .strict a _ _ => a
  | .defeasible a _ _ _ => a

def Rule.consequent : Rule → Literal
  | .strict _ c _ => c
  | .defeasible _ c _ _ => c

def Rule.name : Rule → String
  | .strict _ _ n => n
  | .defeasible _ _ _ n => n

/-- `Proof.vulnerabilities` returns `[]` for a strict top rule. -/
def Rule.vulnerabilities : Rule → List Literal
  | .strict _ _ _ => []
  | .defeasible _ _ v _ => v

def Rule.is_strict : Rule → Bool
  | .strict _ _ _ => true
  | .defeasible _ _ _ _ => false

def Rule.is_defeasible : Rule → Bool
  | .strict _ _ _ => false
  | .defeasible _ _ _ _ => true

/-- `StrictRule.__init__`: the antecedent list is sorted. -/
def mkStrictRule (ant : List Literal) (c : Literal) (name : String) : Rule :=
  .strict (sortBy Literal.lt ant) c name

/-- `DefeasibleRule.__init__`: antecedent and vulnerabilities are sorted. -/
def mkDefeasibleRule (ant : List Literal) (c : Literal) (vuls : List Literal)
    (name : String) : Rule :=
  .defeasible (sortBy Literal.lt ant) c (sortBy Literal.lt vuls) name

/-- Rule equality (`StrictRule.__eq__` / `DefeasibleRule.__eq__`): same
kind, same antecedent, same consequent (and same vulnerabilities); the
name is metadata and does not participate. -/
def ruleEq : Rule → Rule → Bool
  | .strict a c _, .strict a1 c1 _ => decide (a = a1 ∧ c = c1)
  | .defeasible a c v _, .defeasible a1 c1 v1 _ => decide (a = a1 ∧ c = c1 ∧ v = v1)
  | _, _ => false

/-- Comma-separated join of literals. -/
def joinLits (ls : List Literal) : String :=
  String.intercalate ", " (ls.map Literal.str)

/-- `StrictRule.__str__` / `DefeasibleRule.__str__`. -/
def ruleStr : Rule → String
  | .strict a c n =>
    (if n ≠ "" then n ++ ": " else "") ++ joinLits a ++ " --> " ++ c.str
  | .defeasible a c v n =>
    (if n ≠ "" then n ++ ": " else "") ++
      (if a.length > 0 then joinLits a else "") ++
      (if v.length > 0 then " =(" ++ joinLits v ++ ")=> " else " ==> ") ++ c.str

/-- `StrictRule.__lt__` / `DefeasibleRule.__lt__`: a defeasible rule is
smaller than any strict rule; within a kind, compare antecedent count,
then (for defeasible rules) vulnerability count, then the textual form. -/
def ruleLt : Rule → Rule → Bool
  | .strict a c n, .strict a1 c1 n1 =>
    if a.length ≠ a1.length then decide (a.length < a1.length)
    else strLt (ruleStr (.strict a c n)) (ruleStr (.strict a1 c1 n1))
  | .strict _ _ _, .defeasible _ _ _ _ => false
  | .defeasible _ _ _ _, .strict _ _ _ => true
  | .defeasible a c v n, .defeasible a1 c1 v1 n1 =>
    if a.length ≠ a1.length then decide (a.length < a1.length)
    else if v.length ≠ v1.length then decide (v.length < v1.length)
    else strLt (ruleStr (.defeasible a c v n)) (ruleStr (.defeasible a1 c1 v1 n1))

/-- Adding a rule to a Python set of rules: a no-op when an equal rule
(under `ruleEq`) is already present. -/
def insertRule (rs : List Rule) (r : Rule) : List Rule :=
  if rs.any (fun x => ruleEq x r) then rs else rs ++ [r]

/-- Union of two Python sets of rules. -/
def unionRules (a b : List Rule) : List Rule :=
  b.foldl insertRule a

/-- The loop body of `KnowledgeBase.contrapositions` (kb.py lines
684-706): for each antecedent literal `a`, build the rule with antecedent
`[i for i in rule.antecedent if i != a] + [-consequent]` and consequent
`-a`.  The constructed `StrictRule` gets the default name `''`; the
following test `if r.name != ''` therefore never fires, so the derived
name `'%s-%d' % (rule.name, idx)` is never assigned and every
contraposition stays unnamed. -/
def contrapositionsAux (rule : Rule) (nc : Literal) :
    List Literal → List Rule → List Rule
  | [], acc => acc
  | a :: rest, acc =>
    let ant := (rule.antecedent.filter (fun i => i ≠ a)) ++ [nc]
    let r := mkStrictRule ant (Literal.neg a) ""
    contrapositionsAux rule nc rest (insertRule acc r)

/-- `KnowledgeBase.contrapositions` (kb.py lines 684-706). -/
def contrapositions (rule : Rule) : List Rule :=
  contrapositionsAux rule (Literal.neg rule.consequent) rule.antecedent []

/-- The named strict rule `R1: a --> b` used by the contraposition claim. -/
def rC8 : Rule := mkStrictRule [⟨"a", false⟩] ⟨"b", false⟩ "R1"


/-! ## Proofs (argulib/kb.py, class Proof)

A proof is the top rule plus the mapping from each antecedent literal to
the chosen sub-proof; the mapping is the insertion-ordered dict
`self._proofs` of the Python object. -/

mutual
inductive Proof where
  | node (name : String) (rule : Rule) (subs : ProofSubs)
deriving DecidableEq
inductive ProofSubs where
  | nil
  | cons (key : Literal) (p : Proof) (rest : ProofSubs)
deriving DecidableEq
end

def Proof.rule : Proof → Rule
  | .node _ r _ => r

def Proof.name : Proof → String
  | .node n _ _ => n

def Proof.subs : Proof → ProofSubs
  | .node _ _ s => s

/-- `Proof.consequent` / `Proof.conclusion`: the top rule's consequent. -/
def Proof.conclusion (p : Proof) : Literal :=
  p.rule.consequent

def subsLookup : ProofSubs → Literal → Option Proof
  | .nil, _ => none
  | .cons k p rest, key => if k = key then some p else subsLookup rest key

def subsLen : ProofSubs → Nat
  | .nil => 0
  | .cons _ _ rest => subsLen rest + 1

/-- The direct sub-proofs (`self._proofs.values()`), in dict order. -/
def subsProofs : ProofSubs → List Proof
  | .nil => []
  | .cons _ p rest => p :: subsProofs rest

/-- Dict assignment `d[k] = p`: overwrite in place or append. -/
def subsInsert : ProofSubs → Literal → Proof → ProofSubs
  | .nil, k, p => .cons k p .nil
  | .cons k0 p0 rest, k, p =>
    if k0 = k then .cons k0 p rest else .cons k0 p0 (subsInsert rest k p)

mutual
/-- `Proof.__eq__` (kb.py lines 387-389): same top rule (under `ruleEq`,
which ignores names) and equal sub-proof dicts — same keys with equal
proofs; proof names do not participate. -/
def proofEq : Proof → Proof → Bool
  | .node _ r s, .node _ r1 s1 =>
    ruleEq r r1 && (subsLen s == subsLen s1) && subsAll s s1
def subsAll : ProofSubs → ProofSubs → Bool
  | .nil, _ => true
  | .cons k p rest, s1 =>
    (match subsLookup s1 k with
     | some p1 => proofEq p p1
     | none => false) && subsAll rest s1
end

/-- Adding a proof to a Python set of proofs: a no-op when an equal proof
(under `proofEq`) is already present. -/
def insertProof (ps : List Proof) (p : Proof) : List Proof :=
  if ps.any (fun q => proofEq q p) then ps else ps ++ [p]

/-- Union of two Python sets of proofs (`x | y`). -/
def unionProofs (a b : List Proof) : List Proof :=
  b.foldl insertProof a

mutual
/-- `Proof.proofs` (kb.py lines 440-446): the union of the closures of the
direct sub-proofs, with the proof itself added last. -/
def closure (p : Proof) : List Proof :=
  match p with
  | .node n r subs => insertProof (closureSubs [] subs) (.node n r subs)
def closureSubs (acc : List Proof) (l : ProofSubs) : List Proof :=
  match l with
  | .nil => acc
  | .cons _ p rest => closureSubs (unionProofs acc (closure p)) rest
end

/-- `Proof.rules`: the top rules of all proofs in the closure. -/
def closureRules (p : Proof) : List Rule :=
  (closure p).map Proof.rule

/-- `Proof.is_strict` (kb.py line 371): every rule used anywhere in the
proof is strict. -/
def isStrictProof (p : Proof) : Bool :=
  (closure p).all (fun q => q.rule.is_strict)

/-- `Proof.uses_rule` (kb.py lines 467-469): some rule of the closure
equals the given rule. -/
def uses_rule (p : Proof) (r : Rule) : Bool :=
  (closure p).any (fun q => ruleEq q.rule r)

/-- `KnowledgeBase.less_preferred` applied to two rules: rule names are
compared on the preference DAG. -/
def less_preferredR (g : Graph) (a b : Rule) : Bool :=
  more_preferred g b.name a.name

/-- The candidate update of `Proof.update_weakest_link` (kb.py lines
482-486): a strict candidate is replaced by a defeasible link; otherwise
the link replaces the candidate when it is less preferred. -/
def foldWL (g : Graph) (init : Rule) (links : List Rule) : Rule :=
  links.foldl
    (fun w link =>
      if w.is_strict && link.is_defeasible then link
      else if less_preferredR g link w then link else w)
    init

mutual
/-- Tree height of a proof, used as the recursion bound of `weakestF`. -/
def Proof.depth : Proof → Nat
  | .node _ _ subs => ProofSubs.depth subs + 1
def ProofSubs.depth : ProofSubs → Nat
  | .nil => 0
  | .cons _ p rest => max p.depth (ProofSubs.depth rest)
end

/-- `Proof.update_weakest_link` (kb.py lines 475-489), fuelled.  Each
proof computes its weakest link at creation: it is the top rule, and for
a non-strict proof the candidate is folded over
`[p.weakest_link for p in self.proofs]` — the weakest links stored on the
proofs of the closure, where the proof itself still carries its top rule
(the attribute was assigned just before the loop) and every proper member
carries the value computed at its own creation.  The members of the
closure other than the proof itself are proper sub-proofs of strictly
smaller height, so fuel equal to the height (see `weakest_link`) always
reaches the stop value. -/
def weakestF (g : Graph) : Nat → Proof → Rule
  | 0, p => p.rule
  | fuel + 1, p =>
    if isStrictProof p then p.rule
    else
      foldWL g p.rule
        ((closure p).map (fun q => if q = p then p.rule else weakestF g fuel q))

/-- The stored `weakest_link` of a proof. -/
def weakest_link (g : Graph) (p : Proof) : Rule :=
  weakestF g p.depth p

/-- The list folded by the code: the stored weakest links of the closure
members, the proof itself contributing its top rule. -/
def codeLinks (g : Graph) (p : Proof) : List Rule :=
  (closure p).map (fun q => if q = p then p.rule else weakest_link g q)

/-- All permutations of a list (every possible iteration order of the
Python set holding these elements). -/
def insertsAll {β : Type} (x : β) : List β → List (List β)
  | [] => [[x]]
  | y :: ys => (x :: y :: ys) :: (insertsAll x ys).map (y :: ·)

def perms {β : Type} : List β → List (List β)
  | [] => [[]]
  | x :: xs => (perms xs).flatMap (insertsAll x)

/-! ## Forward chaining (`KnowledgeBase.construct_proofs`, kb.py 708-788) -/

/-- Map from a conclusion literal to the Python set of proofs for it
(`self._proofs`, a `defaultdict(set)`). -/
abbrev PMap : Type := List (Literal × List Proof)

/-- The antecedent scan of `construct_proofs` (kb.py lines 738-743):
`for a in r.antecedent: if a in all_proofs: subproofs[a] = all_proofs[a]
else: break` — build the dict until the first missing key. -/
def gather (m : PMap) : List Literal → List (Literal × List Proof) →
    List (Literal × List Proof)
  | [], acc => acc
  | a :: rest, acc =>
    match lookupAL a m with
    | none => acc
    | some ps =>
      gather m rest
        (if (lookupAL a acc).isSome then replaceAL acc a ps else acc ++ [(a, ps)])

/-- `itertools.product` over the per-antecedent proof sets, rightmost
factor varying fastest. -/
def product : List (List Proof) → List (List Proof)
  | [] => [[]]
  | xs :: rest => xs.flatMap (fun x => (product rest).map (x :: ·))

/-- `proofs[sp.consequent] = sp` over a combination, in order. -/
def buildSubs (combo : List Proof) : ProofSubs :=
  combo.foldl (fun s sp => subsInsert s sp.conclusion sp) .nil

/-- `KnowledgeBase.generate_proof_name` (kb.py lines 955-959). -/
def genName (idx : Nat) : String :=
  "P" ++ toString idx

/-- `KnowledgeBase._create_proofs` (kb.py lines 757-788): for every
combination of sub-proofs, skip it when one of the chosen sub-proofs
already uses the rule (loop prevention); otherwise create the proof, name
it with the next `P<N>` (the index advances even when the proof is a
duplicate), and add it to the result set.  The new proof's
`update_weakest_link` runs against the preference DAG at creation; the
embedding recomputes that value on demand through `weakest_link`, which
depends only on the tree and the DAG. -/
def create_proofs (rule : Rule) (subproofs : List (Literal × List Proof))
    (idx : Nat) : List Proof × Nat :=
  (product (subproofs.map (·.2))).foldl
    (fun acc combo =>
      if combo.any (fun sp => uses_rule sp rule) then acc
      else
        let p := Proof.node (genName acc.2) rule (buildSubs combo)
        (insertProof acc.1 p, acc.2 + 1))
    ([], idx)

/-- Adding a literal to a Python set of literals. -/
def insertLit (ls : List Literal) (l : Literal) : List Literal :=
  if l ∈ ls then ls else ls ++ [l]

def unionLits (a b : List Literal) : List Literal :=
  b.foldl insertLit a

/-- `all_proofs[r.consequent] |= tmp` on the shallow copy: a present key's
set is updated in place (and, being the same object as in the original
dict, the original sees the update — see `leak`); a missing key gets a
fresh set holding `tmp`. -/
def updatePMap (m : PMap) (k : Literal) (tmp : List Proof) : PMap :=
  match lookupAL k m with
  | some v => replaceAL m k (unionProofs v tmp)
  | none => m ++ [(k, unionProofs [] tmp)]

/-- The state threaded through the `construct_proofs` loop. -/
structure CPState where
  new_proofs : List Proof
  inferred : List Literal
  all_proofs : PMap
  idx : Nat

/-- The body of the `for r in rules` loop of `construct_proofs` (kb.py
lines 729-749): after the first pass a rule is skipped when no inferred
conclusion meets its antecedent; otherwise gather a proof set for every
antecedent and, if complete, create the candidate proofs and record them. -/
def processRule (num_steps : Nat) (st : CPState) (r : Rule) : CPState :=
  if num_steps > 1 && !(r.antecedent.any (fun a => st.inferred.contains a)) then st
  else
    let subproofs := gather st.all_proofs r.antecedent []
    if subproofs.length = r.antecedent.length then
      let res := create_proofs r subproofs st.idx
      let new1 := unionProofs st.new_proofs res.1
      ⟨new1,
       unionLits st.inferred (new1.map Proof.conclusion),
       updatePMap st.all_proofs r.consequent res.1,
       res.2⟩
    else st

/-- The `while old_size != len(new_proofs)` loop of `construct_proofs`
(kb.py lines 725-753): run a pass over the sorted rules; after the first
pass that produced proofs, widen the rule set to the whole working
memory.  The source loop runs until a fixed point; the fuel only bounds
the number of passes and is chosen large enough in every use below that
the stop branch is taken. -/
def cpLoop (wm : List Rule) :
    Nat → List Rule → CPState → Nat → Int → CPState
  | 0, _, st, _, _ => st
  | fuel + 1, rules, st, num_steps, old_size =>
    if old_size = (st.new_proofs.length : Int) then st
    else
      let ns := num_steps + 1
      let st1 := rules.foldl (processRule ns) st
      let rules1 :=
        if ns = 1 && !st1.new_proofs.isEmpty then sortBy ruleLt (unionRules rules wm)
        else rules
      cpLoop wm fuel rules1 st1 ns (st.new_proofs.length : Int)

/-- `KnowledgeBase.construct_proofs` (kb.py lines 708-755): nothing in
batch mode; otherwise sort the new rules and iterate to the fixed point.
`all_proofs` starts as `copy.copy(existing_proofs)` — a shallow copy
sharing its set objects with `self._proofs` (the comment in the source
says the shallow copy is sufficient); the sharing is accounted for by
`leak`. -/
def construct_proofs (batch : Bool) (wm : List Rule) (proofs0 : PMap)
    (idx0 : Nat) (rules0 : List Rule) (fuel : Nat) : CPState :=
  if batch then ⟨[], [], proofs0, idx0⟩
  else cpLoop wm fuel (sortBy ruleLt rules0) ⟨[], [], proofs0, idx0⟩ 0 (-1)

/-- The effect of the shallow copy on the original `self._proofs`: every
key already present at copy time holds the same set object as the working
copy, so in-place updates (`|=`) of those sets are visible in the
original; keys created later exist only in the copy. -/
def leak (orig work : PMap) : PMap :=
  orig.map (fun kv => (kv.1, (lookupAL kv.1 work).getD kv.2))

/-! ## The knowledge base (argulib/kb.py, class KnowledgeBase) -/

structure KB where
  rules : List (Literal × List Rule)
  wm : List (Literal × List Rule)
  proofs : PMap
  prefs : Graph
  proof_idx : Nat
  batch : Bool
deriving DecidableEq

def KB.empty : KB := ⟨[], [], [], Graph.empty, 0, false⟩

/-- `KnowledgeBase.rules`: every rule of the working memory. -/
def kbRules (kb : KB) : List Rule :=
  kb.wm.flatMap (·.2)

/-- `self._rules[k].add(r)` / `self._wm[k].add(r)` on a `defaultdict(set)`. -/
def addToRMap (m : List (Literal × List Rule)) (k : Literal) (r : Rule) :
    List (Literal × List Rule) :=
  match lookupAL k m with
  | some rs => replaceAL m k (insertRule rs r)
  | none => m ++ [(k, [r])]

/-- `self._proofs[k].add(p)` on a `defaultdict(set)`. -/
def addToPMap (m : PMap) (k : Literal) (p : Proof) : PMap :=
  match lookupAL k m with
  | some ps => replaceAL m k (insertProof ps p)
  | none => m ++ [(k, [p])]

/-- `KnowledgeBase.check_consistency` (kb.py lines 936-953): raise
`KbError` when some strict proof in `proofs` has a strict counter-proof
for the negated consequent in `self._proofs`. -/
def check_consistency (m : PMap) (ps : List Proof) : Option PyErr :=
  ps.findSome? (fun p =>
    if isStrictProof p then
      match lookupAL (Literal.neg p.conclusion) m with
      | some cps => if cps.any isStrictProof then some PyErr.kbError else none
      | none => none
    else none)

/-- `KnowledgeBase._add_strict_rule` (kb.py lines 589-609): build the
contrapositions, construct the new proofs, check consistency and only
then commit the rule, the variants and the proofs.  `construct_proofs`
has however already pushed the new proofs into the sets that
`self._proofs` shares with its shallow copy (`leak`), and
`generate_proof_name` has advanced `proof_idx`; the error value carries
the knowledge base in that state. -/
def add_strict_rule (kb : KB) (rule : Rule) (fuel : Nat) :
    Except (PyErr × KB) KB :=
  if !rule.is_strict then .error (.kbError, kb)
  else
    let cls := contrapositions rule
    let all_variants := unionRules (insertRule [] rule) cls
    let st := construct_proofs kb.batch (kbRules kb) kb.proofs kb.proof_idx
      all_variants fuel
    let kb1 : KB :=
      { kb with proofs := leak kb.proofs st.all_proofs, proof_idx := st.idx }
    match check_consistency kb1.proofs st.new_proofs with
    | some e => .error (e, kb1)
    | none =>
      .ok { kb1 with
            rules := addToRMap kb1.rules rule.consequent rule,
            wm := all_variants.foldl (fun m r => addToRMap m r.consequent r) kb1.wm,
            proofs := st.new_proofs.foldl
              (fun m p => addToPMap m p.conclusion p) kb1.proofs }

/-- `KnowledgeBase._add_defeasible_rule` (kb.py lines 611-624): record the
rule in the rule store and the working memory, then construct and add the
new proofs (no consistency check). -/
def add_defeasible_rule (kb : KB) (rule : Rule) (fuel : Nat) :
    Except (PyErr × KB) KB :=
  if !rule.is_defeasible then .error (.kbError, kb)
  else
    let kb1 := { kb with
                 rules := addToRMap kb.rules rule.consequent rule,
                 wm := addToRMap kb.wm rule.consequent rule }
    let st := construct_proofs kb1.batch (kbRules kb1) kb1.proofs kb1.proof_idx
      [rule] fuel
    .ok { kb1 with
          proofs := st.new_proofs.foldl (fun m p => addToPMap m p.conclusion p)
            (leak kb1.proofs st.all_proofs),
          proof_idx := st.idx }

/-- Project the resulting knowledge base out of an insertion, whether it
succeeded or raised. -/
def getKB : Except (PyErr × KB) KB → KB
  | .ok k => k
  | .error e => e.2

/-! Concrete instances for the consistency-rollback claim: the knowledge
base holds `--> a` and `==> -a`, then the strict rule `--> -a` is
inserted. -/

def litA : Literal := ⟨"a", false⟩

/-- The strict axiom `--> a`. -/
def ruleA : Rule := mkStrictRule [] litA ""

/-- The defeasible axiom `==> -a`. -/
def ruleDnegA : Rule := mkDefeasibleRule [] (Literal.neg litA) [] ""

/-- The strict axiom `--> -a`. -/
def ruleSnegA : Rule := mkStrictRule [] (Literal.neg litA) ""

/-- The knowledge base after `add_rule('--> a')`. -/
def kbC2a : KB := getKB (add_strict_rule KB.empty ruleA 10)

/-- The knowledge base after `add_rule('--> a')` and `add_rule('==> -a')`. -/
def kbC2 : KB := getKB (add_defeasible_rule kbC2a ruleDnegA 10)

/-- The knowledge base left behind by the failed `add_rule('--> -a')`. -/
def kbC2leaked : KB := getKB (add_strict_rule kbC2 ruleSnegA 10)

/-! Concrete instances for the weakest-link claim: proof `P2` applies the
defeasible rule `X` to proof `P1`, which applies the strict rule `R` to
the defeasible leaf `P0` (rule `D`); the only preference edge is
`X -> R`, so `R` is strictly less preferred than `X`. -/

def ruleD5 : Rule := mkDefeasibleRule [] ⟨"s", false⟩ [] "D"

def ruleR5 : Rule := mkStrictRule [⟨"s", false⟩] ⟨"q", false⟩ "R"

def ruleX5 : Rule := mkDefeasibleRule [⟨"q", false⟩] ⟨"p", false⟩ [] "X"

def proofS5 : Proof := .node "P0" ruleD5 .nil

def proofQ5 : Proof := .node "P1" ruleR5 (.cons ⟨"s", false⟩ proofS5 .nil)

def proofP5 : Proof := .node "P2" ruleX5 (.cons ⟨"q", false⟩ proofQ5 .nil)

/-- Preference DAG with the single edge `X -> R`. -/
def gC5 : Graph := Graph.empty.add_edge "X" "R"


/-! ## Dialogue engine (argumentation/discussions.py, class
GroundedDiscussion, and argumentation/players.py, class Player)

A labelled argument passed to a move is itself a `Labelling` (built by
`Labelling.from_argument`); the moves list stores, for each move, which
of the two players made it (callers pass `d.proponent` or `d.opponent`,
so the player is identified by its role), the move kind and the labelled
argument.  Errors carry the discussion in the state it has when the
exception is raised. -/

inductive MoveKind where
  | QUESTION
  | CLAIM
  | WHY
  | BECAUSE
  | CONCEDE
  | DISAGREE
  | RETRACT
deriving DecidableEq

inductive Role where
  | PROPONENT
  | OPPONENT
deriving DecidableEq

structure Player (α : Type) where
  role : Role
  commitment : Labelling α
deriving DecidableEq

structure Discussion (α : Type) where
  labelling : Labelling α
  proponent : Player α
  opponent : Player α
  moves : List (Role × MoveKind × Labelling α)
  open_issues : List (Labelling α)
deriving DecidableEq

/-- `Labelling.__len__`. -/
def labSize (l : Labelling α) : Nat :=
  l.IN.card + l.OUT.card + l.UNDEC.card

/-- `Labelling.arguments`. -/
def labArgs (l : Labelling α) : Finset α :=
  l.IN ∪ l.OUT ∪ l.UNDEC

/-- The property `Labelling.label` (aal.py lines 523-538): the label all
arguments share, or `MethodNotApplicable`. -/
def labLabel (l : Labelling α) : Except PyErr String :=
  if l.IN.card = labSize l then .ok "IN"
  else if l.OUT.card = labSize l then .ok "OUT"
  else if l.UNDEC.card = labSize l then .ok "UNDEC"
  else .error .methodNotApplicable

/-- The property `Labelling.argument` (aal.py lines 540-551): the unique
argument of a single-argument labelling, or `MethodNotApplicable`.  The
source takes `list(args)[0]`; for the one-element set this is its unique
element. -/
def labArgument [LinearOrder α] (l : Labelling α) : Except PyErr α :=
  if (labArgs l).card = 1 then
    match (labArgs l).min with
    | some a => .ok a
    | none => .error .methodNotApplicable
  else .error .methodNotApplicable

/-- `Labelling.is_sublabelling` (aal.py lines 453-456). -/
def is_sublabelling (a b : Labelling α) : Bool :=
  decide (a.IN ⊆ b.IN ∧ a.OUT ⊆ b.OUT ∧ a.UNDEC ⊆ b.UNDEC)

/-- `Player.update_commitment` (players.py lines 18-21): the `OUT` update
subtracts the `IN` set as already updated on the previous line. -/
def update_commitment (c la : Labelling α) : Labelling α :=
  let IN1 := c.IN ∪ (la.IN \ c.OUT)
  let OUT1 := c.OUT ∪ (la.OUT \ IN1)
  ⟨IN1, OUT1, c.UNDEC ∪ la.UNDEC⟩

/-- `player.update_commitment(lab_arg)` applied to the player the caller
passed (identified by its role). -/
def updatePlayer (d : Discussion α) (role : Role) (la : Labelling α) :
    Discussion α :=
  if role = .PROPONENT then
    { d with proponent :=
        { d.proponent with
          commitment := update_commitment d.proponent.commitment la } }
  else
    { d with opponent :=
        { d.opponent with
          commitment := update_commitment d.opponent.commitment la } }

/-- The loop of `GroundedDiscussion.is_contradicting` (discussions.py
lines 51-59): skip empty open issues; compare the single arguments (each
extraction may raise `MethodNotApplicable`) and report a contradiction
when the arguments agree but the labellings differ. -/
def is_contradictingAux [LinearOrder α] (la : Labelling α) :
    List (Labelling α) → Except PyErr Bool
  | [] => .ok false
  | oi :: rest =>
    if labSize oi = 0 then is_contradictingAux la rest
    else
      match labArgument oi with
      | .error e => .error e
      | .ok a1 =>
        match labArgument la with
        | .error e => .error e
        | .ok a2 =>
          if a1 = a2 ∧ oi ≠ la then .ok true else is_contradictingAux la rest

/-- `GroundedDiscussion.is_contradicting` (discussions.py lines 51-59). -/
def is_contradicting [LinearOrder α] (d : Discussion α) (la : Labelling α) :
    Except PyErr Bool :=
  if labSize la = 0 then .ok false else is_contradictingAux la d.open_issues

/-- `GroundedDiscussion._claim` (discussions.py lines 103-116). -/
def claimMove (d : Discussion α) (role : Role) (la : Labelling α) :
    Except (PyErr × Discussion α) (Discussion α) :=
  if role ≠ .PROPONENT then .error (.notYourMove, d)
  else if d.moves.length ≠ 0 then .error (.illegalMove, d)
  else
    let d1 := updatePlayer d role la
    .ok { d1 with
          open_issues := d1.open_issues ++ [la],
          moves := d1.moves ++ [(role, .CLAIM, la)] }

/-- `GroundedDiscussion._retract` (discussions.py lines 118-125): when
the target is not an open issue the error message itself evaluates
`lab_arg.label` and `lab_arg.argument`, each of which may raise
`MethodNotApplicable` before the `IllegalMove` is raised. -/
def retractMove [LinearOrder α] (d : Discussion α) (role : Role)
    (la : Labelling α) : Except (PyErr × Discussion α) (Discussion α) :=
  if la ∈ d.open_issues then
    .ok { d with
          open_issues := d.open_issues.erase la,
          moves := d.moves ++ [(role, .RETRACT, la)] }
  else
    match labLabel la with
    | .error e => .error (e, d)
    | .ok _ =>
      match labArgument la with
      | .error e => .error (e, d)
      | .ok _ => .error (.illegalMove, d)

/-- The kind of the last move (`self.moves[-1][1]`). -/
def lastKind (d : Discussion α) : Option MoveKind :=
  d.moves.getLast?.map (fun m => m.2.1)

/-- `GroundedDiscussion._because` (discussions.py lines 127-148). -/
def becauseMove [LinearOrder α] (d : Discussion α) (role : Role)
    (la : Labelling α) : Except (PyErr × Discussion α) (Discussion α) :=
  if role ≠ .PROPONENT then .error (.notYourMove, d)
  else if d.moves.length = 0 then .error (.illegalMove, d)
  else if lastKind d = some .BECAUSE then .error (.illegalMove, d)
  else if la ∈ d.open_issues then .error (.illegalMove, d)
  else
    match is_contradicting d la with
    | .error e => .error (e, d)
    | .ok true => .error (.illegalMove, d)
    | .ok false =>
      let d1 := { d with open_issues := d.open_issues ++ [la] }
      let d2 := updatePlayer d1 role la
      .ok { d2 with moves := d2.moves ++ [(role, .BECAUSE, la)] }

/-- `GroundedDiscussion._why` (discussions.py lines 150-167);
`Player.is_commited_to` is `lab_arg.is_sublabelling(self.commitment)`
(players.py lines 101-102). -/
def whyMove [LinearOrder α] (d : Discussion α) (role : Role)
    (la : Labelling α) : Except (PyErr × Discussion α) (Discussion α) :=
  if role ≠ .OPPONENT then .error (.notYourMove, d)
  else if !(is_sublabelling la d.proponent.commitment) then .error (.illegalMove, d)
  else
    match is_contradicting d la with
    | .error e => .error (e, d)
    | .ok true => .error (.illegalMove, d)
    | .ok false =>
      let d1 :=
        if la ∈ d.open_issues then d
        else { d with open_issues := d.open_issues ++ [la] }
      .ok { d1 with moves := d1.moves ++ [(role, .WHY, la)] }

/-- `GroundedDiscussion._concede` (discussions.py lines 169-185): after
the role and non-empty-open-issues checks the opponent's commitment is
updated and the move appended; only then does `_concede_upto` call
`self.open_issues.index(lab_arg)`, which raises `ValueError` when the
target is not an open issue — with the commitment update and the move
already applied (the source comment `check that player is conceding to
the last open issue` is not followed by any check). -/
def concedeMove (d : Discussion α) (role : Role) (la : Labelling α) :
    Except (PyErr × Discussion α) (Discussion α) :=
  if role ≠ .OPPONENT then .error (.notYourMove, d)
  else if d.open_issues.length = 0 then .error (.illegalMove, d)
  else
    let d1 := updatePlayer d role la
    let d2 := { d1 with moves := d1.moves ++ [(role, .CONCEDE, la)] }
    match d2.open_issues.findIdx? (fun x => x = la) with
    | none => .error (.valueError, d2)
    | some idx => .ok { d2 with open_issues := d2.open_issues.take idx }

/-- `GroundedDiscussion.move` (discussions.py lines 75-94): `None` is a
no-op; `QUESTION` dispatches to `self._question`, a method the class does
not define, so the attribute lookup raises `AttributeError` with the
state unchanged; `DISAGREE` returns `None`. -/
def move [LinearOrder α] (d : Discussion α) (role : Role)
    (mt : Option MoveKind) (la : Labelling α) :
    Except (PyErr × Discussion α) (Discussion α) :=
  match mt with
  | none => .ok d
  | some .QUESTION => .error (.attributeError, d)
  | some .CLAIM => claimMove d role la
  | some .WHY => whyMove d role la
  | some .BECAUSE => becauseMove d role la
  | some .CONCEDE => concedeMove d role la
  | some .RETRACT => retractMove d role la
  | some .DISAGREE => .ok d

/-- Project the discussion out of a move result, raised or not. -/
def getDisc {α : Type} : Except (PyErr × Discussion α) (Discussion α) → Discussion α
  | .ok d => d
  | .error e => e.2

/-! Concrete instances for the rejected-move claim: two arguments 0 and
1, the labelled arguments `IN(0)` and `IN(1)`, a fresh discussion. -/

def L1C9 : Labelling (Fin 2) := ⟨{0}, ∅, ∅⟩

def L2C9 : Labelling (Fin 2) := ⟨{1}, ∅, ∅⟩

/-- Fresh discussion: empty commitments, no moves, no open issues. -/
def d0C9 : Discussion (Fin 2) :=
  ⟨⟨∅, ∅, ∅⟩, ⟨.PROPONENT, ⟨∅, ∅, ∅⟩⟩, ⟨.OPPONENT, ⟨∅, ∅, ∅⟩⟩, [], []⟩

/-- The discussion after the proponent claims `IN(0)`. -/
def d1C9 : Discussion (Fin 2) := getDisc (move d0C9 .PROPONENT (some .CLAIM) L1C9)

/-- The discussion left behind by the rejected `CONCEDE IN(1)`. -/
def d2C9 : Discussion (Fin 2) := getDisc (move d1C9 .OPPONENT (some .CONCEDE) L2C9)

end Argulib

/-! ## Theorems -/

namespace Argulib

variable {α : Type} [DecidableEq α]

theorem card_after_step (minus : α → Finset α) (l : Labelling α)
    (h : ¬(l.UNDEC.filter (fun a => Labelling.is_legally_in minus l a) = ∅ ∧
           l.UNDEC.filter (fun a => Labelling.is_legally_out minus l a) = ∅)) :
    ((l.UNDEC \ l.UNDEC.filter (fun a => Labelling.is_legally_in minus l a)) \
        l.UNDEC.filter (fun a => Labelling.is_legally_out minus l a)).card < l.UNDEC.card := by
  rw [Classical.not_and_iff_or_not_not] at h
  apply Finset.card_lt_card
  constructor
  · intro a ha
    simp only [Finset.mem_sdiff] at ha
    exact ha.1.1
  · intro hsub
    rcases h with h | h
    · rcases Finset.nonempty_iff_ne_empty.mpr h with ⟨a, ha⟩
      have ha' := Finset.mem_filter.mp ha
      have hmem := hsub ha'.1
      simp only [Finset.mem_sdiff] at hmem
      exact hmem.1.2 ha
    · rcases Finset.nonempty_iff_ne_empty.mpr h with ⟨a, ha⟩
      have ha' := Finset.mem_filter.mp ha
      have hmem := hsub ha'.1
      simp only [Finset.mem_sdiff] at hmem
      exact hmem.2 ha

theorem partition_step (minus : α → Finset α) (args : Finset α) (l : Labelling α)
    (h : IsPartition l args) :
    IsPartition
      ⟨l.IN ∪ l.UNDEC.filter (fun a => Labelling.is_legally_in minus l a),
       l.OUT ∪ l.UNDEC.filter (fun a => Labelling.is_legally_out minus l a),
       (l.UNDEC \ l.UNDEC.filter (fun a => Labelling.is_legally_in minus l a)) \
         l.UNDEC.filter (fun a => Labelling.is_legally_out minus l a)⟩ args := by
  rcases h with ⟨hcov, hio, hiu, hou⟩
  refine ⟨?_, ?_, ?_, ?_⟩
  · rw [← hcov]
    ext x
    simp only [Finset.mem_union, Finset.mem_sdiff, Finset.mem_filter]
    tauto
  · rw [Finset.disjoint_left]
    intro x hx hx'
    simp only [Finset.mem_union] at hx hx'
    rcases hx with hx | hx <;> rcases hx' with hx' | hx'
    · exact Finset.disjoint_left.mp hio hx hx'
    · exact Finset.disjoint_left.mp hiu hx (Finset.mem_filter.mp hx').1
    · exact Finset.disjoint_left.mp hou hx' (Finset.mem_filter.mp hx).1
    · have h1 : minus x ⊆ l.OUT := (Finset.mem_filter.mp hx).2
      have h2 : (minus x ∩ l.IN).Nonempty := (Finset.mem_filter.mp hx').2
      rcases h2 with ⟨y, hy⟩
      rw [Finset.mem_inter] at hy
      exact (Finset.disjoint_left.mp hio hy.2 (h1 hy.1)).elim
  · rw [Finset.disjoint_left]
    intro x hx hx'
    simp only [Finset.mem_union] at hx
    simp only [Finset.mem_sdiff] at hx'
    rcases hx with hx | hx
    · exact Finset.disjoint_left.mp hiu hx hx'.1.1
    · exact hx'.1.2 hx
  · rw [Finset.disjoint_left]
    intro x hx hx'
    simp only [Finset.mem_union] at hx
    simp only [Finset.mem_sdiff] at hx'
    rcases hx with hx | hx
    · exact Finset.disjoint_left.mp hou hx hx'.1.1
    · exact hx'.2 hx

theorem up_complete_partition (minus : α → Finset α) (args : Finset α) :
    ∀ (n : Nat) (l : Labelling α) (steps : α → Option Nat) (counter : Nat),
      l.UNDEC.card ≤ n →
      IsPartition l args →
      IsPartition (up_complete_update minus l steps counter).1 args := by
  intro n
  induction n with
  | zero =>
    intro l steps counter hcard h
    rw [up_complete_update]
    split
    · simpa using h
    · rename_i hneg
      exfalso
      apply hneg
      have hU : l.UNDEC = ∅ := Finset.card_eq_zero.mp (Nat.le_zero.mp hcard)
      constructor <;> · rw [hU]; rfl
  | succ n ih =>
    intro l steps counter hcard h
    rw [up_complete_update]
    split
    · simpa using h
    · rename_i hneg
      apply ih
      · have hlt := card_after_step minus l hneg
        exact Nat.lt_succ_iff.mp (lt_of_lt_of_le hlt hcard)
      · exact partition_step minus args l h

/-- C1: the grounded labelling partitions the arguments. -/
theorem claim_C1 {α : Type} [DecidableEq α] (minus : α → Finset α) (args : Finset α) :
    (grounded minus args).IN ∪ (grounded minus args).OUT ∪ (grounded minus args).UNDEC = args ∧
      Disjoint (grounded minus args).IN (grounded minus args).OUT ∧
      Disjoint (grounded minus args).IN (grounded minus args).UNDEC ∧
      Disjoint (grounded minus args).OUT (grounded minus args).UNDEC := by
  exact up_complete_partition minus args args.card (Labelling.all_UNDEC args)
    (fun _ => none) 0 (le_refl _)
    ⟨by simp [Labelling.all_UNDEC], by simp [Labelling.all_UNDEC],
     by simp [Labelling.all_UNDEC], by simp [Labelling.all_UNDEC]⟩


/-- C4: at an argument that has no attacker labelled IN and one attacker
labelled UNDEC, the method `Labelling.is_legally_undecided` is true, as the
claim states, but the module-level helper `is_undec` — which
`assign_label_from` relies on — returns `False` (it always does, because
its second conjunct negates the truthiness of the function object
`is_out`), so `assign_label_from` yields `None` instead of `"UNDEC"`. -/
theorem claim_C4 :
    Labelling.is_legally_undecided minusC4 lC4 1 = true ∧
      (minusC4 1 ∩ lC4.IN = ∅) ∧ (minusC4 1 ∩ lC4.UNDEC).Nonempty ∧
      is_undec minusC4 lC4 1 = false ∧
      assign_label_from minusC4 lC4 1 = none := by
  decide

/-- C10: for an argument in none of the three sets `get_label` answers
`"UNDEC"` while `label_for` raises `IllegalArgument`, and the two lookups
agree (`label_for` returns `ok` of `get_label`) exactly on the arguments
present in the labelling. -/
theorem claim_C10 (l : Labelling α) (a : α) :
    (a ∉ l.IN → a ∉ l.OUT → a ∉ l.UNDEC →
      Labelling.get_label l a = "UNDEC" ∧
        Labelling.label_for l a = .error .illegalArgument) ∧
    (Labelling.label_for l a = .ok (Labelling.get_label l a) ↔
      a ∈ l.IN ∨ a ∈ l.OUT ∨ a ∈ l.UNDEC) := by
  unfold Labelling.get_label Labelling.label_for
  split_ifs with h1 h2 h3 <;> simp_all

/-- Witness for C10 at a concrete labelling and argument. -/
theorem claim_C10_witness :
    Labelling.get_label (⟨∅, ∅, ∅⟩ : Labelling (Fin 1)) 0 = "UNDEC" ∧
      Labelling.label_for (⟨∅, ∅, ∅⟩ : Labelling (Fin 1)) 0 =
        .error .illegalArgument :=
  (claim_C10 ⟨∅, ∅, ∅⟩ 0).1 (by decide) (by decide) (by decide)

/-- C3, counterexample: inserting the ordering `A < B < C` into a DAG that
already holds `B -> C` fails with `KbError` at the second pair, but the
first pair's edge `B -> A` has already been committed, so the DAG is not
as it was before the call. -/
theorem counter_C3 :
    add_ordering_prefs gC3 oC3 = .error (.kbError, gC3after) ∧ gC3after ≠ gC3 := by
  decide

/-- C3 as amended: when inserting an ordering raises `KbError`, the DAG at
the raise is the one obtained by committing the pairs preceding the failing
group pair; the failing pair itself commits no edge (in particular, an
ordering with a single pair leaves the DAG unchanged on failure). -/
theorem claim_C3 (direction : Char) :
    ∀ (pairs : List (List String × List String)) (g : Graph) (e : PyErr)
      (g1 : Graph),
      applyPairs direction g pairs = .error (e, g1) →
      ∃ pre ab post, pairs = pre ++ ab :: post ∧
        applyPairs direction g pre = .ok g1 ∧
        add_preference_rule g1 ab.1 ab.2 direction = .error e := by
  intro pairs
  induction pairs with
  | nil =>
    intro g e g1 h
    simp [applyPairs] at h
  | cons ab rest ih =>
    intro g e g1 h
    rw [applyPairs] at h
    cases hx : add_preference_rule g ab.1 ab.2 direction with
    | error e0 =>
      rw [hx] at h
      injection h with h
      injection h with he hg
      refine ⟨[], ab, rest, rfl, ?_, ?_⟩
      · rw [applyPairs, ← hg]
      · rw [← hg, ← he]; exact hx
    | ok g2 =>
      rw [hx] at h
      obtain ⟨pre, ab1, post, hsplit, hpre, hfail⟩ := ih g2 e g1 h
      exact ⟨ab :: pre, ab1, post, by rw [hsplit]; rfl,
        by rw [applyPairs, hx]; exact hpre, hfail⟩

/-- Witness for the amended C3 at the concrete cyclic insertion. -/
theorem claim_C3_witness :
    ∃ pre ab post, oC3.data = pre ++ ab :: post ∧
      applyPairs oC3.direction gC3 pre = .ok gC3after ∧
      add_preference_rule gC3after ab.1 ab.2 oC3.direction = .error .kbError :=
  claim_C3 oC3.direction oC3.data gC3 .kbError gC3after (by decide)

/-- C6: the saved form of the preference DAG reverses every preference.
The DAG holding the single edge `R2 -> R1` (obtained from the ordering
`R1 < R2`, so `more_preferred(R2, R1)` holds) is saved as the line
`R2 < R1`; loading that line into a fresh knowledge base produces the edge
`R1 -> R2`, so after the round trip `more_preferred(R2, R1)` is false and
`more_preferred(R1, R2)` is true — the preference relation is not
reproduced. -/
theorem claim_C6 :
    more_preferred gC6 "R2" "R1" = true ∧
      more_preferred (roundtrip_prefs gC6) "R2" "R1" = false ∧
      more_preferred (roundtrip_prefs gC6) "R1" "R2" = true := by
  decide

/-- C7: deleting the ordering `R1 < R2` from a DAG that holds the edge
`R2 -> R1` raises `AttributeError` (the code reads the non-existent
attribute `ordering.ord`) and removes nothing, instead of removing the
edge and completing as the claim states. -/
theorem claim_C7 :
    del_ordering gC7 oC7 = .error (.attributeError, gC7) ∧
      lookupAL "R2" gC7.items = some ["R1"] := by
  decide


/-- C8: contrapositions never receive the derived name.  For the named
strict rule `R1: a --> b` the code produces the contraposition
`-b --> -a` with the empty name, not `R1-1`: the test `if r.name != ''`
inspects the freshly constructed (always unnamed) rule instead of the
source rule, so the naming branch is dead. -/
theorem claim_C8 :
    rC8.name = "R1" ∧
      contrapositions rC8 = [Rule.strict [⟨"b", true⟩] ⟨"a", true⟩ ""] ∧
      ((contrapositions rC8).all (fun r => r.name == "")) = true := by
  decide

/-- C2: rejected strict insertion leaves the proof set changed.  With the
knowledge base holding `--> a` and `==> -a`, inserting `--> -a` raises
`KbError` from the consistency check, and the user rule store and the
working memory are still as before — but the proof set is not: the new
strict proof `P2` of `-a` was pushed, through the set object shared
between `self._proofs` and its shallow copy, into the entry for `-a`
before the check ran, and it stays there after the raise. -/
theorem claim_C2 :
    add_strict_rule KB.empty ruleA 10 = .ok kbC2a ∧
      add_defeasible_rule kbC2a ruleDnegA 10 = .ok kbC2 ∧
      add_strict_rule kbC2 ruleSnegA 10 = .error (.kbError, kbC2leaked) ∧
      kbC2leaked.rules = kbC2.rules ∧
      kbC2leaked.wm = kbC2.wm ∧
      kbC2leaked.proofs ≠ kbC2.proofs ∧
      lookupAL (Literal.neg litA) kbC2leaked.proofs =
        some [Proof.node "P1" ruleDnegA .nil, Proof.node "P2" ruleSnegA .nil] ∧
      lookupAL (Literal.neg litA) kbC2.proofs =
        some [Proof.node "P1" ruleDnegA .nil] := by
  decide

/-- C5, counterexample: the weakest link of `P2` is `X` although the
strict rule `R` appears in the closure of `P2` and is strictly less
preferred than `X`, so the chosen link is not the least-preferred rule of
the closure; the code's fold runs over the stored weakest links of the
closure proofs (`[D, D, X]` — the rule `R` is not among them, its proof
having stored `D`), and gives `X` under every iteration order of that
set, while the claim's fold over the rules of the closure gives `D ≠ X`
when scanned in the order `[R, D, X]`. -/
theorem counter_C5 :
    weakest_link gC5 proofP5 = ruleX5 ∧
      closureRules proofP5 = [ruleD5, ruleR5, ruleX5] ∧
      more_preferred gC5 ruleX5.name ruleR5.name = true ∧
      codeLinks gC5 proofP5 = [ruleD5, ruleD5, ruleX5] ∧
      ((perms [ruleD5, ruleD5, ruleX5]).all
        (fun l => foldWL gC5 ruleX5 l == ruleX5)) = true ∧
      foldWL gC5 ruleX5 [ruleR5, ruleD5, ruleX5] = ruleD5 ∧
      ruleD5 ≠ ruleX5 := by
  decide


theorem depth_pos (p : Proof) : 1 ≤ p.depth := by
  cases p with
  | node n r subs => simp [Proof.depth]

theorem mem_insertProof {ps : List Proof} {p q : Proof}
    (h : q ∈ insertProof ps p) : q ∈ ps ∨ q = p := by
  unfold insertProof at h
  split at h
  · exact Or.inl h
  · rcases List.mem_append.mp h with h1 | h1
    · exact Or.inl h1
    · exact Or.inr (List.mem_singleton.mp h1)

theorem mem_unionProofs {q : Proof} :
    ∀ (b a : List Proof), q ∈ unionProofs a b → q ∈ a ∨ q ∈ b := by
  intro b
  induction b with
  | nil => intro a h; exact Or.inl h
  | cons x xs ih =>
    intro a h
    rcases ih (insertProof a x) h with h1 | h1
    · rcases mem_insertProof h1 with h2 | h2
      · exact Or.inl h2
      · exact Or.inr (by rw [h2]; exact List.mem_cons_self x xs)
    · exact Or.inr (List.mem_cons_of_mem x h1)

theorem mem_closureSubs {q : Proof} :
    ∀ (l : ProofSubs) (acc : List Proof), q ∈ closureSubs acc l →
      q ∈ acc ∨ ∃ p0 ∈ subsProofs l, q ∈ closure p0
  | .nil, acc, h => Or.inl (by simpa [closureSubs] using h)
  | .cons k p rest, acc, h => by
    rw [closureSubs] at h
    rcases mem_closureSubs rest _ h with h1 | ⟨p0, hp0, hq0⟩
    · rcases mem_unionProofs _ _ h1 with h2 | h2
      · exact Or.inl h2
      · exact Or.inr ⟨p, by simp [subsProofs], h2⟩
    · exact Or.inr ⟨p0, by simp [subsProofs]; exact Or.inr hp0, hq0⟩

theorem mem_closure_cases {q p : Proof} (h : q ∈ closure p) :
    q = p ∨ ∃ p0 ∈ subsProofs p.subs, q ∈ closure p0 := by
  cases p with
  | node n r subs =>
    rw [closure] at h
    rcases mem_insertProof h with h1 | h1
    · rcases mem_closureSubs subs [] h1 with h2 | h2
      · simp at h2
      · exact Or.inr h2
    · exact Or.inl h1

theorem subsProofs_depth {p0 : Proof} :
    ∀ (l : ProofSubs), p0 ∈ subsProofs l → p0.depth ≤ ProofSubs.depth l
  | .nil, h => by simp [subsProofs] at h
  | .cons k p rest, h => by
    rw [subsProofs] at h
    rw [ProofSubs.depth]
    rcases List.mem_cons.mp h with h1 | h1
    · rw [h1]; exact le_max_left _ _
    · exact le_trans (subsProofs_depth rest h1) (le_max_right _ _)

theorem depth_mem_closure :
    ∀ (n : Nat) (p : Proof), p.depth ≤ n → ∀ q ∈ closure p, q.depth ≤ p.depth := by
  intro n
  induction n with
  | zero => intro p hp; exact absurd (le_trans (depth_pos p) hp) (by omega)
  | succ n ih =>
    intro p hp q hq
    rcases mem_closure_cases hq with h1 | ⟨p0, hp0, hq0⟩
    · rw [h1]
    · have hd : ProofSubs.depth p.subs + 1 = p.depth := by
        cases p with
        | node nm r subs => rfl
      have h2 : p0.depth ≤ ProofSubs.depth p.subs := subsProofs_depth _ hp0
      have h3 := ih p0 (by omega) q hq0
      omega

theorem depth_mem_closure_ne {p q : Proof} (hq : q ∈ closure p) (hne : q ≠ p) :
    q.depth < p.depth := by
  rcases mem_closure_cases hq with h1 | ⟨p0, hp0, hq0⟩
  · exact absurd h1 hne
  · have hd : ProofSubs.depth p.subs + 1 = p.depth := by
      cases p with
      | node nm r subs => rfl
    have h2 : p0.depth ≤ ProofSubs.depth p.subs := subsProofs_depth _ hp0
    have h3 := depth_mem_closure p0.depth p0 (le_refl _) q hq0
    omega

theorem weakestF_irrel (g : Graph) :
    ∀ (n : Nat) (p : Proof) (fuel : Nat), p.depth ≤ n → p.depth ≤ fuel →
      weakestF g fuel p = weakestF g p.depth p := by
  intro n
  induction n with
  | zero => intro p fuel hn _; exact absurd (le_trans (depth_pos p) hn) (by omega)
  | succ n ih =>
    intro p fuel hn hf
    obtain ⟨d, hd⟩ : ∃ d, p.depth = d + 1 := ⟨p.depth - 1, by have := depth_pos p; omega⟩
    obtain ⟨f, hf1⟩ : ∃ f, fuel = f + 1 := ⟨fuel - 1, by have := depth_pos p; omega⟩
    rw [hd, hf1, weakestF, weakestF]
    split
    · rfl
    · congr 1
      apply List.map_congr_left
      intro q hq
      by_cases hqp : q = p
      · simp [hqp]
      · rw [if_neg hqp, if_neg hqp]
        have hlt : q.depth < p.depth := depth_mem_closure_ne hq hqp
        have e1 : weakestF g f q = weakestF g q.depth q :=
          ih q f (by omega) (by omega)
        have e2 : weakestF g d q = weakestF g q.depth q :=
          ih q d (by omega) (by omega)
        rw [e1, e2]

theorem foldWL_mem (g : Graph) :
    ∀ (links : List Rule) (init : Rule),
      foldWL g init links = init ∨ foldWL g init links ∈ links := by
  intro links
  induction links with
  | nil => intro init; exact Or.inl rfl
  | cons l rest ih =>
    intro init
    have hstep :
        (if init.is_strict && l.is_defeasible then l
         else if less_preferredR g l init then l else init) = init ∨
        (if init.is_strict && l.is_defeasible then l
         else if less_preferredR g l init then l else init) = l := by
      split
      · exact Or.inr rfl
      · split
        · exact Or.inr rfl
        · exact Or.inl rfl
    have hrec := ih (if init.is_strict && l.is_defeasible then l
      else if less_preferredR g l init then l else init)
    rw [foldWL] at hrec ⊢
    rw [List.foldl_cons]
    rcases hrec with h1 | h1
    · rw [h1]
      rcases hstep with h2 | h2
      · exact Or.inl h2
      · exact Or.inr (by rw [h2]; exact List.mem_cons_self l rest)
    · exact Or.inr (List.mem_cons_of_mem l h1)

/-- C5 as amended: a strict proof's weakest link is its top rule; a
defeasible proof's weakest link is the fold of the preference comparison
(strict candidate replaced by a defeasible link, a less-preferred link
replacing the candidate, ties keeping the candidate) over the weakest
links stored on the proofs of its closure — the proof itself contributing
its top rule — rather than over every rule of the closure; in particular
the result is the top rule or one of those stored weakest links. -/
theorem claim_C5 (g : Graph) (p : Proof) :
    (isStrictProof p = true → weakest_link g p = p.rule) ∧
    (isStrictProof p = false →
      weakest_link g p = foldWL g p.rule (codeLinks g p) ∧
      (weakest_link g p = p.rule ∨ weakest_link g p ∈ codeLinks g p)) := by
  obtain ⟨d, hd⟩ : ∃ d, p.depth = d + 1 := ⟨p.depth - 1, by have := depth_pos p; omega⟩
  constructor
  · intro hs
    unfold weakest_link
    rw [hd, weakestF, if_pos hs]
  · intro hs
    have hmain : weakest_link g p = foldWL g p.rule (codeLinks g p) := by
      unfold weakest_link codeLinks
      rw [hd, weakestF, if_neg (by simp [hs])]
      congr 1
      apply List.map_congr_left
      intro q hq
      by_cases hqp : q = p
      · simp [hqp]
      · rw [if_neg hqp, if_neg hqp]
        unfold weakest_link
        have hlt : q.depth < p.depth := depth_mem_closure_ne hq hqp
        exact weakestF_irrel g q.depth q d (le_refl _) (by omega)
    exact ⟨hmain, by rw [hmain]; exact foldWL_mem g (codeLinks g p) p.rule⟩

/-- Witness for the amended C5 at the concrete proofs: the strict leaf-use
case on `P1`'s sub-proof and the defeasible case on `P2`. -/
theorem claim_C5_witness :
    isStrictProof proofP5 = false ∧
      weakest_link gC5 proofP5 = foldWL gC5 proofP5.rule (codeLinks gC5 proofP5) :=
  ⟨by decide, ((claim_C5 gC5 proofP5).2 (by decide)).1⟩


/-- C9: a rejected CONCEDE does not leave the engine unchanged.  After
the proponent's opening CLAIM of `IN(0)`, the opponent concedes `IN(1)`,
which is not an open issue; the engine raises (`ValueError` from
`open_issues.index`, not one of the dialogue errors), but by then the
CONCEDE move has been appended to the moves list and the opponent's
commitment store has been updated, so the state is not as it was before
the call. -/
theorem claim_C9 :
    move d0C9 .PROPONENT (some .CLAIM) L1C9 = .ok d1C9 ∧
      move d1C9 .OPPONENT (some .CONCEDE) L2C9 = .error (.valueError, d2C9) ∧
      d2C9.moves = d1C9.moves ++ [(.OPPONENT, .CONCEDE, L2C9)] ∧
      d2C9.moves ≠ d1C9.moves ∧
      d2C9.opponent.commitment ≠ d1C9.opponent.commitment := by
  decide

end Argulib
